import Mathlib

/-!
Verification of the sequence-detection and encode-job-orchestration engine of
the Python-Timelapse-Maker repository (`timelapse_engine.py`, `main_gui.py`).

Modelling conventions (shallow embedding):
* a filename (or any Python string) is a `List Char`, abbreviated `Str`;
* a directory is the list of names of the regular files it directly contains
  (`item.is_file()` checks in the source skip everything else, so non-file
  entries are observationally irrelevant and are not modelled);
* Python `int` values arising from all-digit strings are `Nat`;
* fallible operations return `Option`/`Except`;
* `ffprobe` results are an input `dims : Str → Option (Nat × Nat)`, part of
  the directory state.
-/

namespace Timelapse

/-- Python strings are modelled as lists of characters. -/
abbrev Str := List Char

/-- Literal helper: the character list of a Lean string literal. -/
def str (s : String) : Str := s.data

/-- Python slice `s[a:-b]` as used in `get_numeric_part`
(`filename_str[len(prefix):-len(suffix)]`): when `b = 0` the slice is
`s[a:0]`, which is empty. -/
def pySliceToNegEnd (s : Str) (a b : Nat) : Str :=
  if b = 0 then [] else (s.drop a).take ((s.drop a).length - b)

/-- Python `str.isdigit` restricted to ASCII decimal digits, which is what the
numbered-filename convention of the repository uses. -/
def pyIsDigit (c : Char) : Bool :=
  c ∈ ['0', '1', '2', '3', '4', '5', '6', '7', '8', '9']

/-- Embeds `timelapse_engine.get_numeric_part(filename_str, prefix, suffix)`:
the numeric string between the literal start `pre` and literal end `suf` of
`fn`, or `none` if the name does not decompose that way.  The emptiness check
mirrors Python's `"".isdigit() == False`. -/
def get_numeric_part (fn pre suf : Str) : Option Str :=
  if pre.isPrefixOf fn && suf.isSuffixOf fn then
    if !(pySliceToNegEnd fn pre.length suf.length).isEmpty
        && (pySliceToNegEnd fn pre.length suf.length).all pyIsDigit then
      some (pySliceToNegEnd fn pre.length suf.length)
    else none
  else none

/-- Numeric value of an ASCII digit character (`'0' ↦ 0`, …, `'9' ↦ 9`). -/
def digitVal (c : Char) : Nat := c.toNat - 48

/-- Base-10 value of a little-endian digit list (structural twin of
`Nat.ofDigits 10`, kept kernel-reducible for concrete evaluation). -/
def ofDigitsL : List Nat → Nat
  | [] => 0
  | d :: L => d + 10 * ofDigitsL L

/-- Python `int(s)` for the all-digit strings produced by
`get_numeric_part` (most significant digit first). -/
def digitsVal (s : Str) : Nat := ofDigitsL ((s.map digitVal).reverse)

/-- Little-endian base-10 digits of `n`, with explicit fuel so the definition
is structural (hence kernel-reducible); `fuel ≥ n` makes it agree with
`Nat.digits 10 n`. -/
def digitsRev : Nat → Nat → List Nat
  | 0, _ => []
  | fuel + 1, n => if n = 0 then [] else n % 10 :: digitsRev fuel (n / 10)

/-- Python `str(n)` / `"%d" % n` for a natural number. -/
def natStr (n : Nat) : Str :=
  if n = 0 then ['0'] else ((digitsRev n n).map Nat.digitChar).reverse

/-- Python `"%0Nd" % v` (zero-pad `str v` on the left to width `w`; numbers
wider than `w` are rendered unpadded). -/
def zeroPad (w v : Nat) : Str := List.replicate (w - (natStr v).length) '0' ++ natStr v

/-! ### The sequence scanner (`timelapse_engine.py`) -/

/-- Renders `f"{filename_prefix}%0{num_digits}d{filename_suffix}" % v`: the expected
filename generated from the zero-padded pattern
(`image_pattern_basename_for_ffmpeg % temp_current_num_val`). -/
def templateName (pre suf : Str) (w v : Nat) : Str := pre ++ zeroPad w v ++ suf

/-- The `all_potential_files_info` scan (lines 151–159 and 92–100): the
matching filenames of the directory listing, in listing order.  The numeric
string and its `int` value are functions of the name and are recomputed where
used. -/
def potentialFiles (dir : List Str) (pre suf : Str) : List Str :=
  dir.filter (fun fn => (get_numeric_part fn pre suf).isSome)

/-- Numeric value of a matching filename (`int(num_str)`). -/
def numValOf (pre suf fn : Str) : Nat := digitsVal ((get_numeric_part fn pre suf).getD [])

/-- Lexicographic `≤` on character lists — Python's string comparison by code
point. -/
def strLeB : Str → Str → Bool
  | [], _ => true
  | _ :: _, [] => false
  | a :: as, b :: bs => if a < b then true else if b < a then false else strLeB as bs

/-- The sort key of the scanners, `key=lambda x: (x[2], x[0].name)`:
by numeric value, ties broken by filename. -/
def fileLe (pre suf : Str) (f g : Str) : Prop :=
  numValOf pre suf f < numValOf pre suf g ∨
    (numValOf pre suf f = numValOf pre suf g ∧ strLeB f g = true)

instance fileLe.decidableRel (pre suf : Str) : DecidableRel (fileLe pre suf) := fun _ _ => by
  unfold fileLe
  infer_instance

/-- The inner `while True` probe loop of
`generate_ffmpeg_commands_for_sequences_in_dir` (lines 172–180):
`frames_in_this_sequence_paths`, collected by probing `templateName` at
`v, v+1, …` until a probe misses.  Successive probes are distinct names all
drawn from the finite directory listing, so the Python loop terminates;
`fuel` is always instantiated with `dir.length + 1`, which that argument
shows is enough (see `collectRun_fuel_stable`). -/
def collectRun (dir : List Str) (pre suf : Str) (w : Nat) : Nat → Nat → List Str
  | 0, _ => []
  | fuel + 1, v =>
    if templateName pre suf w v ∈ dir then
      templateName pre suf w v :: collectRun dir pre suf w fuel (v + 1)
    else []

/-- The outer `for` loop of `generate_ffmpeg_commands_for_sequences_in_dir`
(lines 165–182), reduced to the data each yield is built from: the pattern
width `num_digits_for_pattern` and the member frames of the run.
`processed` is `processed_files_in_this_dir`. -/
def sequenceRunsLoop (dir : List Str) (pre suf : Str) :
    List Str → List Str → List (Nat × List Str)
  | [], _ => []
  | fn :: rest, processed =>
    if fn ∈ processed then sequenceRunsLoop dir pre suf rest processed
    else
      match get_numeric_part fn pre suf with
      | none => sequenceRunsLoop dir pre suf rest processed
      | some s =>
        if (collectRun dir pre suf s.length (dir.length + 1) (digitsVal s)).isEmpty then
          sequenceRunsLoop dir pre suf rest processed
        else
          (s.length, collectRun dir pre suf s.length (dir.length + 1) (digitsVal s)) ::
            sequenceRunsLoop dir pre suf rest
              (processed ++ collectRun dir pre suf s.length (dir.length + 1) (digitsVal s))

/-- The sequences discovered in one directory: sorted matching files folded
through `sequenceRunsLoop` starting from an empty processed set. -/
def sequenceRuns (dir : List Str) (pre suf : Str) : List (Nat × List Str) :=
  sequenceRunsLoop dir pre suf
    (List.insertionSort (fileLe pre suf) (potentialFiles dir pre suf)) []

/-- The inner probe loop of `count_total_sequences_in_paths` (lines 124–134),
recorded as the list of files it marks processed; `sequence_had_frames` is
the statement that this list is nonempty. -/
def countProbeLoop (dir : List Str) (pre suf : Str) (w : Nat) : Nat → Nat → List Str
  | 0, _ => []
  | fuel + 1, v =>
    if templateName pre suf w v ∈ dir then
      templateName pre suf w v :: countProbeLoop dir pre suf w fuel (v + 1)
    else []

/-- The per-directory counting loop of `count_total_sequences_in_paths`
(lines 105–136): `current_dir_sequence_count`.  The `+1` at a run start and
the `-1` when `sequence_had_frames` stayed false combine into counting only
starts whose probe list is nonempty. -/
def countLoop (dir : List Str) (pre suf : Str) : List Str → List Str → Nat
  | [], _ => 0
  | fn :: rest, processed =>
    if fn ∈ processed then countLoop dir pre suf rest processed
    else
      match get_numeric_part fn pre suf with
      | none => countLoop dir pre suf rest processed
      | some s =>
        if (countProbeLoop dir pre suf s.length (dir.length + 1) (digitsVal s)).isEmpty then
          countLoop dir pre suf rest processed
        else
          1 + countLoop dir pre suf rest
            (processed ++ countProbeLoop dir pre suf s.length (dir.length + 1) (digitsVal s))

/-- Embeds `timelapse_engine.count_total_sequences_in_paths` (lines 78–139): each
parent directory is modelled by its file listing. -/
def count_total_sequences_in_paths (dirs : List (List Str)) (pre suf : Str) : Nat :=
  (dirs.map (fun d =>
    countLoop d pre suf
      (List.insertionSort (fileLe pre suf) (potentialFiles d pre suf)) [])).sum


/-! ### String helpers used by the job compiler -/

/-- Python `s.replace(pat, rep)` (left-to-right, non-overlapping), with
explicit fuel; every call site uses a nonempty `pat`, and each step consumes
at least one character, so `s.length` fuel always suffices. -/
def replaceAllAux (pat rep : Str) : Nat → Str → Str
  | 0, s => s
  | fuel + 1, s =>
    if !pat.isEmpty && pat.isPrefixOf s then
      rep ++ replaceAllAux pat rep fuel (s.drop pat.length)
    else
      match s with
      | [] => []
      | c :: cs => c :: replaceAllAux pat rep fuel cs

/-- Python `s.replace(pat, rep)`. -/
def replaceAll (s pat rep : Str) : Str := replaceAllAux pat rep s.length s

/-- Python `s.strip()` (ASCII whitespace at both ends). -/
def pyStrip (s : Str) : Str :=
  ((s.dropWhile Char.isWhitespace).reverse.dropWhile Char.isWhitespace).reverse

/-- Python `s.lower()` for the ASCII strings the engine manipulates. -/
def pyLower (s : Str) : Str := s.map Char.toLower

/-- Truthiness of an optional string setting (`dict.get(k)` used in an `if`):
`None` and the empty string are falsy. -/
def pyTruthyS : Option Str → Bool
  | some s => !s.isEmpty
  | none => false

/-- Embeds the `/` operator of `pathlib`, rendered with a POSIX separator. -/
def pathJoin (d n : Str) : Str := d ++ '/' :: n

/-! ### The job compiler (`generate_ffmpeg_commands_for_sequences_in_dir`,
lines 182–317) -/

/-- The `common_settings` dictionary as consumed by the engine.  `Option`
fields model keys that may be absent (`dict.get` returning `None`); where the
source reads a key everywhere with one default, the field carries that
default.  `pixel_format_final` is read with two different defaults, so it
stays an `Option`.  Frame rates are carried in rendered form (`str(fps)`),
the only form the engine uses them in. -/
structure CommonSettings where
  scale_filter_string : Str := []
  resolution_desc : Str := str "Original"
  video_codec : Str := str "libx264"
  output_basename_ui : Str := []
  prores_profile_val : Option Nat := none
  prores_profiles_map : List (Str × Nat) := []
  dnx_bitrate_or_profile : Option Str := none
  input_fps : Str := str "10.0"
  output_fps : Str := str "30.0"
  hw_cq_value : Option Nat := none
  hwaccel_type : Str := str "none"
  is_crf_based : Bool := false
  crf_value : Option Nat := none
  hw_preset : Option Str := none
  codec_preset : Option Str := none
  vp9_cpu_used : Option Nat := none
  output_extension : Str := str ".mp4"
  main_output_dir : Str := str "."
  pixel_format_final : Option Str := none
  base_codec : Option Str := none
deriving Repr, DecidableEq

/-- Constant `MAX_NVENC_H264_WIDTH` (line 198). -/
def MAX_NVENC_H264_WIDTH : Nat := 4096

/-- Constant `MAX_NVENC_HEVC_WIDTH` (line 199) — defined in the source but never used
by the width check, whose `hevc_nvenc` branch is marked `# Simplified`. -/
def MAX_NVENC_HEVC_WIDTH : Nat := 8192

/-- Lines 200–206: `(needs_hw_scaling_adjustment, target_hw_scale_width)`.
Both the `h264_nvenc` and the `hevc_nvenc` branch compare against — and
downscale to — `MAX_NVENC_H264_WIDTH` in the source. -/
def needsHwScalingAdjustment (video_codec : Str) (img_width : Nat)
    (scale_filter_ui : Str) : Bool × Nat :=
  if img_width > 0 && scale_filter_ui.isEmpty then
    if video_codec == str "h264_nvenc" && img_width > MAX_NVENC_H264_WIDTH then
      (true, MAX_NVENC_H264_WIDTH)
    else if video_codec == str "hevc_nvenc" && img_width > MAX_NVENC_H264_WIDTH then
      (true, MAX_NVENC_H264_WIDTH)
    else (false, 0)
  else (false, 0)

/-- Lines 207–211: `(effective_scale_filter, effective_resolution_desc)`. -/
def effectiveScale (video_codec : Str) (img_width : Nat)
    (scale_filter_ui desc_ui : Str) : Str × Str :=
  if (needsHwScalingAdjustment video_codec img_width scale_filter_ui).1 then
    (str "scale=" ++ natStr (needsHwScalingAdjustment video_codec img_width scale_filter_ui).2
        ++ str ":-2:flags=lanczos",
     str "AutoScaled-" ++ natStr (needsHwScalingAdjustment video_codec img_width scale_filter_ui).2
        ++ str "w")
  else (scale_filter_ui, desc_ui)

/-- Line 220: `codec_for_fn`. -/
def codecForFn (vc : Str) : Str :=
  replaceAll (replaceAll (replaceAll vc (str "_nvenc") (str "Nvenc"))
    (str "_qsv") (str "QSV")) (str "_amf") (str "AMF")

/-- Lines 224–227: the ProRes profile tag, found by scanning the profile map
in insertion order for the first key whose value matches (`break` after the
first hit). -/
def proresTag (cs : CommonSettings) (vc : Str) : List Str :=
  match cs.prores_profile_val with
  | none => []
  | some pv =>
    if vc == str "prores_ks" then
      match cs.prores_profiles_map.find? (fun kv => kv.2 == pv) with
      | some kv => [str "p" ++ pyLower kv.1]
      | none => []
    else []

/-- Lines 228–230: the DNx tag. -/
def dnxTag (cs : CommonSettings) (vc : Str) : List Str :=
  if pyTruthyS cs.dnx_bitrate_or_profile && (vc == str "dnxhd") then
    [replaceAll (replaceAll (replaceAll (cs.dnx_bitrate_or_profile.getD [])
        (str "dnxhr_") []) (str "M") []) (str "K") []]
  else []

/-- Lines 233–245: quality and preset tags of the output filename. -/
def qualityPresetTags (cs : CommonSettings) (vc : Str) : List Str :=
  (if cs.hw_cq_value.isSome && (cs.hwaccel_type != str "none") then
      [str "cq" ++ natStr (cs.hw_cq_value.getD 0)]
    else if cs.is_crf_based && cs.crf_value.isSome then
      [str "crf" ++ natStr (cs.crf_value.getD 0)]
    else []) ++
  (if pyTruthyS cs.hw_preset then [cs.hw_preset.getD []]
    else if pyTruthyS cs.codec_preset then
      (if vc == str "libvpx-vp9" then
        [str "dl" ++ cs.codec_preset.getD []] ++
          (match cs.vp9_cpu_used with
            | some n => [str "cpu" ++ natStr n]
            | none => [])
      else if vc == str "libx264" || vc == str "libx265" then [cs.codec_preset.getD []]
      else [])
    else [])

/-- Lines 247–252: the resolution tag
(`desc.split('(')[0].strip().replace(' ', '_').replace('%_of_original', '%orig').lower()`). -/
def resolutionTag (effective_scale_filter effective_desc : Str) : List Str :=
  if !effective_scale_filter.isEmpty then
    [pyLower (replaceAll (replaceAll (pyStrip (effective_desc.takeWhile (fun c => c ≠ '(')))
        (str " ") (str "_")) (str "%_of_original") (str "%orig"))]
  else [str "orig"]

/-- Lines 214–256: the deterministic output filename and destination path. -/
def outputPath (dirName : Str) (cs : CommonSettings) (vc : Str)
    (actual_start : Str) (effective_scale_filter effective_desc : Str) : Str :=
  pathJoin cs.main_output_dir
    (List.intercalate (str "_")
      (((if !(pyStrip cs.output_basename_ui).isEmpty then pyStrip cs.output_basename_ui
          else dirName) ::
        (str "seq" ++ actual_start) ::
        codecForFn vc ::
        (proresTag cs vc ++ dnxTag cs vc ++
          [cs.input_fps ++ str "in-" ++ cs.output_fps ++ str "out"] ++
          qualityPresetTags cs vc ++
          resolutionTag effective_scale_filter effective_desc)).filter
        (fun p => !p.isEmpty))
      ++ cs.output_extension)

/-- Lines 259–315: the ffmpeg argument list for one sequence. -/
def ffmpegCmd (dirPath : Str) (pre suf : Str) (cs : CommonSettings) (vc : Str)
    (actual_start : Str) (w num_frames : Nat)
    (effective_scale_filter final_path : Str) : List Str :=
  let base := [str "ffmpeg", str "-y", str "-framerate", cs.input_fps,
    str "-start_number", actual_start,
    str "-i", pathJoin dirPath (pre ++ str "%0" ++ natStr w ++ str "d" ++ suf),
    str "-vframes", natStr num_frames]
  let vf0 := effective_scale_filter
  let vf1 := if pyTruthyS cs.pixel_format_final then
      (if !vf0.isEmpty then vf0 ++ str ",format=" ++ cs.pixel_format_final.getD []
       else str "format=" ++ cs.pixel_format_final.getD [])
    else vf0
  let withVf := if !vf1.isEmpty then base ++ [str "-vf", vf1] else base
  let withCodec := withVf ++ [str "-c:v", vc]
  let isHwActive := (cs.hwaccel_type != str "none") &&
    (match cs.base_codec with
      | some b => vc ≠ b
      | none => true)
  let withQuality :=
    if isHwActive then
      withCodec ++
        (if cs.hw_cq_value.isSome then
          (if cs.hwaccel_type == str "nvenc" then
            [str "-cq", natStr (cs.hw_cq_value.getD 0)]
          else if cs.hwaccel_type == str "qsv" then
            [str "-global_quality", natStr (cs.hw_cq_value.getD 0)]
          else [])
        else []) ++
        (if pyTruthyS cs.hw_preset then
          (if cs.hwaccel_type == str "nvenc" then [str "-preset:v", cs.hw_preset.getD []]
          else if cs.hwaccel_type == str "amf" then [str "-quality", cs.hw_preset.getD []]
          else [])
        else [])
    else
      withCodec ++
        (if pyTruthyS cs.codec_preset then
          (if vc == str "libvpx-vp9" then [str "-deadline", cs.codec_preset.getD []]
          else if vc == str "libx264" || vc == str "libx265" then
            [str "-preset", cs.codec_preset.getD []]
          else [])
        else []) ++
        (if cs.is_crf_based && cs.crf_value.isSome then
          [str "-crf", natStr (cs.crf_value.getD 0)] ++
            (if vc == str "libvpx-vp9" then [str "-b:v", str "0"] else [])
        else []) ++
        (if cs.prores_profile_val.isSome && (vc == str "prores_ks") then
          [str "-profile:v", natStr (cs.prores_profile_val.getD 0)]
        else []) ++
        (if pyTruthyS cs.dnx_bitrate_or_profile && (vc == str "dnxhd") then
          (if (pyLower (cs.dnx_bitrate_or_profile.getD [])).getLast? == some 'm'
              || (pyLower (cs.dnx_bitrate_or_profile.getD [])).getLast? == some 'k' then
            [str "-b:v", cs.dnx_bitrate_or_profile.getD []]
          else [str "-profile:v", cs.dnx_bitrate_or_profile.getD []])
        else []) ++
        (if cs.vp9_cpu_used.isSome && (vc == str "libvpx-vp9") then
          [str "-cpu-used", natStr (cs.vp9_cpu_used.getD 0)]
        else [])
  withQuality ++ [str "-r", cs.output_fps, str "-pix_fmt",
    cs.pixel_format_final.getD (str "yuv420p"), final_path]

/-- Lines 182–317: build the yielded triple
`(ffmpeg_cmd, final_output_path, num_frames_to_process)` for one nonempty
run.  `dims` is the `ffprobe` dimension oracle, keyed by the full frame
path. -/
def buildJob (dirName dirPath pre suf : Str) (cs : CommonSettings)
    (dims : Str → Option (Nat × Nat)) (w : Nat) (frames : List Str) :
    List Str × Str × Nat :=
  let num_frames := frames.length
  let actual_start : Str :=
    match get_numeric_part (frames.headD []) pre suf with
    | some s => s
    | none => str "None"
  let img_width : Nat :=
    match dims (pathJoin dirPath (frames.headD [])) with
    | some p => p.1
    | none => 0
  let es := effectiveScale cs.video_codec img_width cs.scale_filter_string cs.resolution_desc
  let path := outputPath dirName cs cs.video_codec actual_start es.1 es.2
  (ffmpegCmd dirPath pre suf cs cs.video_codec actual_start w num_frames es.1 path,
    path, num_frames)

/-- Embeds `timelapse_engine.generate_ffmpeg_commands_for_sequences_in_dir`
(lines 143–317), as the list of yielded
`(ffmpeg_cmd, final_output_path, num_frames)` triples.  The directory is its
file listing plus its path/name and the `ffprobe` oracle `dims`. -/
def generate_ffmpeg_commands_for_sequences_in_dir (dir : List Str)
    (pre suf : Str) (cs : CommonSettings) (dims : Str → Option (Nat × Nat))
    (dirName dirPath : Str) : List (List Str × Str × Nat) :=
  (sequenceRuns dir pre suf).map (fun r => buildJob dirName dirPath pre suf cs dims r.1 r.2)

/-! ### Directory discovery (`find_potential_sequence_dirs`, lines 46–76) -/

/-- An entry of the parent directory: its name, whether it is a
subdirectory, and (when it is one) the names of the regular files directly
inside it. -/
structure DirEntry where
  name : Str
  isDir : Bool
  files : List Str
deriving Repr, DecidableEq

/-- Embeds `timelapse_engine.find_potential_sequence_dirs` (lines 46–76).  `none`
models a `parent_dir_path` that does not exist or is not a directory: the
source then prints `Engine Error: … not found.` and returns the empty list —
it raises nothing, so the embedding is a total function into `List Str`.
A subdirectory qualifies if some regular file in it matches (the source
`break`s at the first hit, i.e. `List.any`). -/
def find_potential_sequence_dirs (parent : Option (List DirEntry))
    (pre suf : Str) : List Str :=
  match parent with
  | none => []
  | some items =>
    (items.filter (fun it =>
      it.isDir && it.files.any (fun f => (get_numeric_part f pre suf).isSome))).map
      (fun it => it.name)

/-- Modelled from the spec (§4.1 `discover_candidate_directories`), for
comparison only: "Fails with `NotADirectoryError`-class error if `parent`
does not exist or is not a directory; returns empty result (not an error) if
no subdirectory qualifies." -/
def discover_candidate_directories_specModel (parent : Option (List DirEntry))
    (pre suf : Str) : Except Str (List Str) :=
  match parent with
  | none => Except.error (str "NotADirectoryError")
  | some items =>
    Except.ok ((items.filter (fun it =>
      it.isDir && it.files.any (fun f => (get_numeric_part f pre suf).isSome))).map
      (fun it => it.name))

/-! ### Custom scale validation
(`TimelapseApp.gather_common_settings_from_ui`, `main_gui.py` lines 875–887) -/

/-- Python `int(s)` for the custom-width field: optional minus sign followed
by ASCII digits; anything else raises `ValueError` (= `none`). -/
def pyIntParse : Str → Option Int
  | [] => none
  | '-' :: rest =>
    if !rest.isEmpty && rest.all pyIsDigit then some (-(digitsVal rest : Int)) else none
  | s => if s.all pyIsDigit then some (digitsVal s : Int) else none

/-- The custom-`WxH` branch of `gather_common_settings_from_ui` (lines
875–887), returning `(scale_filter_string, resolution_desc)`.  A rejected
dimension is logged and falls back to no scaling with description
`"Original (Custom Err)"`; the job is not failed.  The filter template is
`"scale={w}:{h}:flags=lanczos"` from `scale_options_map_for_ui` (line 253). -/
def customScaleSettings (w h : Str) : Str × Str :=
  match pyIntParse w with
  | none => ([], str "Original (Custom Err)")
  | some iw =>
    if iw > 0 ∧ iw % 2 = 0 then
      if h = str "-2" ∨
          (h ≠ [] ∧ h.all pyIsDigit = true ∧ 0 < digitsVal h ∧ digitsVal h % 2 = 0) then
        (replaceAll (replaceAll (str "scale={w}:{h}:flags=lanczos") (str "{w}") w)
            (str "{h}") h,
         str "Custom " ++ w ++ str "x" ++ (if h ≠ str "-2" then h else str "(auto_H)"))
      else ([], str "Original (Custom Err)")
    else ([], str "Original (Custom Err)")

/-! ### The batch state machine (`main_gui.py`) -/

/-- Values stored in a sequence-data dict. -/
inductive PyVal where
  | s (v : Str)
  | n (v : Nat)
deriving Repr, DecidableEq

/-- A Python dict with string keys, as an association list in insertion
order; `d[k]` raising `KeyError` is modelled by `dictGet` returning
`none`. -/
abbrev PyDict := List (Str × PyVal)

/-- Dict lookup. -/
def dictGet (d : PyDict) (k : Str) : Option PyVal :=
  match d.find? (fun kv => kv.1 == k) with
  | some kv => some kv.2
  | none => none

/-- The per-sequence dict attached to tree items by
`TimelapseApp.scan_directories_action` (lines 1016–1021).  Note the key is
`start_number_str_approx`; no `start_number_str` key is ever stored. -/
def scanSeqDict (parent_path startApprox : Str) (framesApprox : Nat) : PyDict :=
  [(str "type", PyVal.s (str "sequence")),
   (str "parent_path", PyVal.s parent_path),
   (str "start_number_str_approx", PyVal.s startApprox),
   (str "num_frames_approx", PyVal.n framesApprox)]

/-- The slice of `TimelapseApp` state that the batch methods read and
write. -/
structure AppState where
  sequences_queue_for_batch : List PyDict := []
  current_batch_sequence_index : Nat := 0
  processed_sequences_in_batch_count : Nat := 0
  batch_cancelled_flag : Bool := false
  tree_item_count : Nat := 0
  start_button_enabled : Bool := true
  scan_button_enabled : Bool := true
  cancel_batch_button_enabled : Bool := false
  cancel_current_button_enabled : Bool := false
  common_settings_for_batch : Option CommonSettings := none
  worker_cancel_requested : Bool := false

/-- Outcome of one call to `start_batch_action`. -/
inductive StartOutcome where
  | emptySelectionReturn
  | settingsAbortReturn
  | fellThroughNoDispatch
deriving Repr, DecidableEq

/-- Embeds `TimelapseApp.start_batch_action` (lines 1046–1101).  `checkedSeqData`
holds the data dicts of the checked sequence tree items in tree order;
`gathered` is the result of `gather_common_settings_from_ui()` (`none` =
falsy).  In the source, lines 1083–1100 — the counter reset,
`current_batch_sequence_index = 0` and the call to
`process_next_individual_sequence()` — are indented under the
`if not self.common_settings_for_batch:` block AFTER its `return`, so they
are dead code: on the success path the method ends without resetting any
counter and without dispatching (outcome `fellThroughNoDispatch`). -/
def start_batch_action (st : AppState) (checkedSeqData : List PyDict)
    (gathered : Option CommonSettings) : AppState × StartOutcome :=
  let queue := checkedSeqData.filter
    (fun d => dictGet d (str "type") == some (PyVal.s (str "sequence")))
  let st1 := { st with sequences_queue_for_batch := queue }
  if queue.isEmpty then (st1, StartOutcome.emptySelectionReturn)
  else
    let st2 := { st1 with
      start_button_enabled := false
      scan_button_enabled := false
      cancel_batch_button_enabled := true
      cancel_current_button_enabled := false
      batch_cancelled_flag := false
      common_settings_for_batch := gathered }
    match gathered with
    | none =>
      ({ st2 with
        start_button_enabled := true
        scan_button_enabled := true
        cancel_batch_button_enabled := false }, StartOutcome.settingsAbortReturn)
    | some _ => (st2, StartOutcome.fellThroughNoDispatch)

/-- Outcome of one call to `process_next_individual_sequence`. -/
inductive NextOutcome where
  | cancelledHalt
  | completedHalt
  | keyError (k : Str)
  | reachedJobSearch
deriving Repr, DecidableEq

/-- Embeds `TimelapseApp.cleanup_after_batch_or_cancel` (lines 1173–1189), state
part: re-enables scanning, enables start iff the tree has items, resets the
cancel flag. -/
def cleanup_after_batch_or_cancel (st : AppState) : AppState :=
  { st with
    scan_button_enabled := true
    start_button_enabled := decide (0 < st.tree_item_count)
    cancel_batch_button_enabled := false
    cancel_current_button_enabled := false
    batch_cancelled_flag := false }

/-- Embeds `TimelapseApp.process_next_individual_sequence` (lines 1102–1157), up to
the start of the job-matching loop.  The cancel flag is checked first; then
queue exhaustion; then the current queue entry is read.
`sequence_to_process_data["start_number_str"]` (line 1120) raises `KeyError`
for every scan-produced entry, because the scan stores
`"start_number_str_approx"` instead.  `reachedJobSearch` marks the point
where both lookups succeeded and the method would enter the job-matching
loop (whose first iteration would raise `NameError` on the undefined name
`sequence_data`, line 1141); scan-produced entries never reach it. -/
def process_next_individual_sequence (st : AppState) : AppState × NextOutcome :=
  if st.batch_cancelled_flag then
    (cleanup_after_batch_or_cancel st, NextOutcome.cancelledHalt)
  else if st.sequences_queue_for_batch.length ≤ st.current_batch_sequence_index then
    (cleanup_after_batch_or_cancel st, NextOutcome.completedHalt)
  else
    match dictGet (st.sequences_queue_for_batch.getD st.current_batch_sequence_index [])
        (str "parent_path") with
    | none => (st, NextOutcome.keyError (str "parent_path"))
    | some _ =>
      match dictGet (st.sequences_queue_for_batch.getD st.current_batch_sequence_index [])
          (str "start_number_str") with
      | none => (st, NextOutcome.keyError (str "start_number_str"))
      | some _ => (st, NextOutcome.reachedJobSearch)

/-- Embeds `TimelapseApp.cancel_batch_action` (lines 630–638): sets the batch-cancel
flag, requests cancellation of the in-flight worker
(`cancel_current_action` → `FFmpegWorker.cancel_task`), and disables the
start/cancel buttons. -/
def cancel_batch_action (st : AppState) : AppState :=
  { st with
    batch_cancelled_flag := true
    worker_cancel_requested := true
    start_button_enabled := false
    cancel_batch_button_enabled := false
    cancel_current_button_enabled := false }

/-- Embeds `TimelapseApp.on_ffmpeg_worker_finished_slot` (lines 1158–1171):
increments the completed count only when the batch was not cancelled,
increments the index unconditionally, and re-enters
`process_next_individual_sequence`. -/
def on_ffmpeg_worker_finished_slot (st : AppState) (success : Bool) (out : Str) :
    AppState × NextOutcome :=
  let st1 := { st with cancel_current_button_enabled := false }
  let st2 := if !st1.batch_cancelled_flag then
      { st1 with
        processed_sequences_in_batch_count := st1.processed_sequences_in_batch_count + 1 }
    else st1
  process_next_individual_sequence
    { st2 with current_batch_sequence_index := st2.current_batch_sequence_index + 1 }

/-! ### The process supervisor (`FFmpegWorker.run`, lines 94–184) -/

/-- Events the worker emits through Qt signals (log messages are abstracted
to a tag). -/
inductive WorkerEvent where
  | log (msg : Str)
  | progress (cur total : Nat)
  | finished (success : Bool) (out : Str)
deriving Repr, DecidableEq

/-- One progress line already split at `=` (the parse itself is not what the
claims are about). -/
inductive ProgLine where
  | frame (n : Nat)
  | progressEnd
  | other
deriving Repr, DecidableEq

/-- Observable behaviour of the spawned encoder process: the progress lines
read from its stdout, with the value of `_is_cancelled` observed at the top
of that loop iteration (cancellation is asynchronous), the exit code, and
the flag value seen by the re-check after the loop. -/
structure ProcModel where
  lines : List (Bool × ProgLine)
  exitcode : Int
  lateCancel : Bool

/-- The progress-reading loop (lines 110–143): events emitted, and whether
the loop exited because it observed the cancellation flag. -/
def progressLoop (total : Nat) : List (Bool × ProgLine) → List WorkerEvent × Bool
  | [] => ([], false)
  | (flag, line) :: rest =>
    if flag then ([WorkerEvent.log (str "Cancellation signal received")], true)
    else
      match line with
      | ProgLine.frame n =>
        (WorkerEvent.progress n total :: (progressLoop total rest).1,
          (progressLoop total rest).2)
      | ProgLine.progressEnd => ([WorkerEvent.progress total total], false)
      | ProgLine.other => progressLoop total rest

/-- Embeds `FFmpegWorker.run` (lines 94–184).  `spawn` is the result of
`subprocess.Popen`: `Except.error` is a spawn failure (e.g.
`FileNotFoundError`, encoder binary missing).  The source's `try` block has
NO `except` clauses — only the placeholder comment
`# ... (except FileNotFoundError, subprocess.TimeoutExpired, Exception as e) ...`
`# Ensure these except blocks also emit self.finished(False, ...)` — so a
spawn failure propagates out of `run` (through the `finally`, which does
nothing when `self.process is None`): the result is `Except.error` carrying
the exception and the events emitted before the raise, which never include a
`finished` event.  After a completed read loop, the flag re-check (line 146)
decides between the cancelled-tagged terminal event and the exit-code
branches. -/
def ffmpegWorkerRun (outputPathName : Str) (total : Nat) (verbose : Bool)
    (spawn : Except Str ProcModel) : Except (Str × List WorkerEvent) (List WorkerEvent) :=
  let startLogs := [WorkerEvent.log (str "Starting FFmpeg for"),
    WorkerEvent.log (str "Executing FFmpeg")]
  match spawn with
  | Except.error e => Except.error (e, startLogs)
  | Except.ok proc =>
    if (progressLoop total proc.lines).2 || proc.lateCancel then
      Except.ok (startLogs ++ (progressLoop total proc.lines).1 ++
        [WorkerEvent.log (str "confirmed cancelled"),
         WorkerEvent.finished false (outputPathName ++ str " (Cancelled)")])
    else if proc.exitcode = 0 then
      Except.ok (startLogs ++ (progressLoop total proc.lines).1 ++
        ((if verbose then [WorkerEvent.log (str "FFmpeg messages (verbose)")] else []) ++
         [WorkerEvent.log (str "Successfully created"),
          WorkerEvent.finished true outputPathName]))
    else
      Except.ok (startLogs ++ (progressLoop total proc.lines).1 ++
        [WorkerEvent.log (str "ERROR: FFmpeg command failed"),
         WorkerEvent.finished false outputPathName])

/-! ## Theorems -/

theorem ofDigitsL_eq (L : List Nat) : ofDigitsL L = Nat.ofDigits 10 L := by
  induction L with
  | nil => simp [ofDigitsL, Nat.ofDigits_nil]
  | cons d L ih => simp [ofDigitsL, Nat.ofDigits_cons, ih]

theorem digitsRev_eq_digits : ∀ fuel n, n ≤ fuel → digitsRev fuel n = Nat.digits 10 n := by
  intro fuel
  induction fuel with
  | zero =>
    intro n hn
    interval_cases n
    simp [digitsRev, Nat.digits_zero]
  | succ fuel ih =>
    intro n hn
    by_cases h0 : n = 0
    · subst h0; simp [digitsRev, Nat.digits_zero]
    · have hpos : 0 < n := Nat.pos_of_ne_zero h0
      rw [Nat.digits_def' (b := 10) (by norm_num) hpos]
      unfold digitsRev
      have hdiv : n / 10 < n := Nat.div_lt_self hpos (by norm_num)
      rw [if_neg h0, ih (n / 10) (by omega)]

theorem natStr_eq_digits (n : Nat) :
    natStr n = if n = 0 then ['0'] else ((Nat.digits 10 n).map Nat.digitChar).reverse := by
  unfold natStr
  rw [digitsRev_eq_digits n n le_rfl]

/-! ### Round-trip facts about digit strings -/

theorem digitVal_digitChar {d : Nat} (hd : d < 10) : digitVal (Nat.digitChar d) = d := by
  interval_cases d <;> rfl

theorem pyIsDigit_digitChar {d : Nat} (hd : d < 10) : pyIsDigit (Nat.digitChar d) = true := by
  interval_cases d <;> rfl

theorem digitChar_digitVal {c : Char} (hc : pyIsDigit c = true) :
    Nat.digitChar (digitVal c) = c := by
  simp only [pyIsDigit, List.mem_cons, List.not_mem_nil, or_false, decide_eq_true_eq] at hc
  rcases hc with h | h | h | h | h | h | h | h | h | h <;> subst h <;> rfl

theorem digitVal_lt_ten {c : Char} (hc : pyIsDigit c = true) : digitVal c < 10 := by
  simp only [pyIsDigit, List.mem_cons, List.not_mem_nil, or_false, decide_eq_true_eq] at hc
  rcases hc with h | h | h | h | h | h | h | h | h | h <;> subst h <;> decide

theorem digitVal_ne_zero {c : Char} (hc : pyIsDigit c = true) (h0 : c ≠ '0') :
    digitVal c ≠ 0 := by
  simp only [pyIsDigit, List.mem_cons, List.not_mem_nil, or_false, decide_eq_true_eq] at hc
  rcases hc with h | h | h | h | h | h | h | h | h | h <;> subst h <;> first
    | exact absurd rfl h0
    | decide

theorem natStr_ne_nil (n : Nat) : natStr n ≠ [] := by
  rw [natStr_eq_digits]
  split
  · simp
  · next h =>
    simp only [ne_eq, List.reverse_eq_nil_iff, List.map_eq_nil_iff]
    exact Nat.digits_ne_nil_iff_ne_zero.mpr h

theorem natStr_all_digits (n : Nat) : (natStr n).all pyIsDigit = true := by
  rw [natStr_eq_digits]
  split
  · rfl
  · simp only [List.all_eq_true, List.mem_reverse, List.mem_map]
    rintro c ⟨d, hd, rfl⟩
    exact pyIsDigit_digitChar (Nat.digits_lt_base (by norm_num) hd)

theorem ofDigits_replicate_zero (k : Nat) : Nat.ofDigits 10 (List.replicate k 0) = 0 := by
  induction k with
  | zero => rfl
  | succ k ih => simp [List.replicate_succ, Nat.ofDigits_cons, ih]

/-- Leading zeros do not change the numeric value. -/
theorem digitsVal_replicate_zero_append (k : Nat) (t : Str) :
    digitsVal (List.replicate k '0' ++ t) = digitsVal t := by
  simp only [digitsVal, ofDigitsL_eq]
  have h0 : digitVal '0' = 0 := by decide
  have hmap : (List.replicate k '0').map digitVal = List.replicate k 0 := by
    rw [List.map_replicate, h0]
  rw [List.map_append, hmap, List.reverse_append, Nat.ofDigits_append,
    List.reverse_replicate, ofDigits_replicate_zero]
  simp

theorem digitsVal_natStr (n : Nat) : digitsVal (natStr n) = n := by
  simp only [digitsVal, ofDigitsL_eq, natStr_eq_digits]
  split
  · next h => subst h; simp [digitVal, Nat.ofDigits]
  · next h =>
    have hlt : ∀ d ∈ Nat.digits 10 n, d < 10 := fun d hd =>
      Nat.digits_lt_base (by norm_num) hd
    have : (((Nat.digits 10 n).map Nat.digitChar).reverse.map digitVal).reverse
        = Nat.digits 10 n := by
      rw [← List.map_reverse, List.reverse_reverse, List.map_map]
      calc (Nat.digits 10 n).map (digitVal ∘ Nat.digitChar)
          = (Nat.digits 10 n).map id := by
            apply List.map_congr_left
            intro d hd
            simp [digitVal_digitChar (hlt d hd)]
        _ = Nat.digits 10 n := List.map_id _
    rw [this, Nat.ofDigits_digits]

/-- Identity `digitsVal (zeroPad w v) = v`: probing with the zero-padded template
recovers the probed value. -/
theorem digitsVal_zeroPad (w v : Nat) : digitsVal (zeroPad w v) = v := by
  unfold zeroPad
  rw [digitsVal_replicate_zero_append, digitsVal_natStr]

theorem zeroPad_ne_nil (w v : Nat) : zeroPad w v ≠ [] := by
  unfold zeroPad
  simp [natStr_ne_nil v]

theorem zeroPad_all_digits (w v : Nat) : (zeroPad w v).all pyIsDigit = true := by
  unfold zeroPad
  simp only [List.all_append, Bool.and_eq_true, List.all_eq_true]
  constructor
  · intro c hc
    rw [List.eq_of_mem_replicate hc]; rfl
  · intro c hc
    exact (List.all_eq_true.mp (natStr_all_digits v)) c hc

theorem length_natStr_le {n w : Nat} (hn : n < 10 ^ w) (hw : 0 < w) :
    (natStr n).length ≤ w := by
  rw [natStr_eq_digits]
  split
  · simpa using hw
  · next h =>
    simp only [List.length_reverse, List.length_map]
    rw [Nat.digits_len 10 n (by norm_num) h]
    have : Nat.log 10 n < w := Nat.log_lt_of_lt_pow h hn
    omega

theorem length_zeroPad {w v : Nat} (hv : v < 10 ^ w) (hw : 0 < w) :
    (zeroPad w v).length = w := by
  unfold zeroPad
  have := length_natStr_le hv hw
  simp only [List.length_append, List.length_replicate]
  omega

theorem digitsVal_lt {s : Str} (hdig : s.all pyIsDigit = true) :
    digitsVal s < 10 ^ s.length := by
  simp only [digitsVal, ofDigitsL_eq]
  have h := Nat.ofDigits_lt_base_pow_length (b := 10) (l := (s.map digitVal).reverse)
    (by norm_num) (by
      intro x hx
      simp only [List.mem_reverse, List.mem_map] at hx
      rcases hx with ⟨c, hc, rfl⟩
      exact digitVal_lt_ten ((List.all_eq_true.mp hdig) c hc))
  simpa using h

/-- Rendering `natStr` inverts `digitsVal` on all-digit strings with no leading zero. -/
theorem natStr_digitsVal_of_head_ne_zero {t : Str} (htn : t ≠ [])
    (hdig : t.all pyIsDigit = true) (hhead : t.head htn ≠ '0') :
    natStr (digitsVal t) = t := by
  have hLne : (t.map digitVal).reverse ≠ [] := by
    simp [List.reverse_eq_nil_iff, htn]
  have hlast : ∀ h : (t.map digitVal).reverse ≠ [],
      ((t.map digitVal).reverse).getLast h ≠ 0 := by
    intro h
    rw [List.getLast_reverse h]
    rw [List.head_map]
    exact digitVal_ne_zero ((List.all_eq_true.mp hdig) _ (List.head_mem htn)) hhead
  have hdlt : ∀ x ∈ (t.map digitVal).reverse, x < 10 := by
    intro x hx
    simp only [List.mem_reverse, List.mem_map] at hx
    rcases hx with ⟨c, hc, rfl⟩
    exact digitVal_lt_ten ((List.all_eq_true.mp hdig) c hc)
  have hdv : digitsVal t = Nat.ofDigits 10 ((t.map digitVal).reverse) := by
    simp only [digitsVal, ofDigitsL_eq]
  have hdig10 : Nat.digits 10 (digitsVal t) = (t.map digitVal).reverse := by
    rw [hdv]
    exact Nat.digits_ofDigits 10 (by norm_num) _ hdlt hlast
  have hne0 : digitsVal t ≠ 0 := by
    intro h
    rw [h] at hdig10
    simp only [Nat.digits_zero] at hdig10
    exact hLne hdig10.symm
  rw [natStr_eq_digits]
  rw [if_neg hne0, hdig10, ← List.map_reverse, List.reverse_reverse, List.map_map]
  calc t.map (Nat.digitChar ∘ digitVal)
      = t.map id := by
        apply List.map_congr_left
        intro c hc
        simp [digitChar_digitVal ((List.all_eq_true.mp hdig) c hc)]
    _ = t := List.map_id _

/-- The fundamental round trip: an all-digit string of width `w` is recovered by
zero-padding its own value to width `w`.  This is why, in the scanning loops of
`timelapse_engine.py`, the first probe of a run always hits the start file
itself. -/
theorem zeroPad_digitsVal {s : Str} (hne : s ≠ []) (hdig : s.all pyIsDigit = true) :
    zeroPad s.length (digitsVal s) = s := by
  have hsplit : s.takeWhile (fun c => c == '0') ++ s.dropWhile (fun c => c == '0') = s :=
    List.takeWhile_append_dropWhile _ _
  set z := s.takeWhile (fun c => c == '0') with hzdef
  set t := s.dropWhile (fun c => c == '0') with htdef
  have hzrep : z = List.replicate z.length '0' := by
    apply List.eq_replicate_of_mem
    intro c hc
    have := List.mem_takeWhile_imp hc
    exact eq_of_beq this
  have hval : digitsVal s = digitsVal t := by
    conv_lhs => rw [← hsplit]
    rw [hzrep, digitsVal_replicate_zero_append]
  have hlen : s.length = z.length + t.length := by
    conv_lhs => rw [← hsplit]
    simp
  by_cases htn : t = []
  · -- all characters of `s` are `'0'`; the value is 0 and padding restores it
    have hzl : s.length = z.length := by rw [hlen, htn]; simp
    have hsrep : s = List.replicate s.length '0' := by
      conv_lhs => rw [← hsplit, htn, List.append_nil, hzrep]
      rw [hzl]
    have hval0 : digitsVal s = 0 := by
      rw [hval, htn]
      simp [digitsVal, ofDigitsL]
    rw [hval0]
    have hlp : 1 ≤ s.length := List.length_pos.mpr hne
    unfold zeroPad natStr
    rw [if_pos rfl]
    simp only [List.length_cons, List.length_nil, Nat.zero_add]
    have hrep : List.replicate (s.length - 1) '0' ++ ['0'] = List.replicate s.length '0' := by
      have h1 := List.replicate_succ' (n := s.length - 1) (a := '0')
      rw [← h1]
      congr 1
      omega
    rw [hrep]
    exact hsrep.symm
  · have hhead : t.head htn ≠ '0' := by
      intro h
      have hw : s.dropWhile (fun c => c == '0') ≠ [] := htn
      have hnot := List.head_dropWhile_not (fun c => c == '0') s hw
      have heq : (s.dropWhile (fun c => c == '0')).head hw = t.head htn := rfl
      rw [heq, h] at hnot
      simp at hnot
    have htdig : t.all pyIsDigit = true := by
      rw [List.all_eq_true] at hdig ⊢
      intro c hc
      exact hdig c ((List.dropWhile_sublist _).mem hc)
    have htval : natStr (digitsVal t) = t :=
      natStr_digitsVal_of_head_ne_zero htn htdig hhead
    unfold zeroPad
    rw [hval, htval]
    have : s.length - t.length = z.length := by omega
    rw [this, ← hzrep, hsplit]

/-! ### Decomposition of matching filenames -/

theorem get_numeric_part_eq_some {fn pre suf s : Str}
    (h : get_numeric_part fn pre suf = some s) :
    fn = pre ++ s ++ suf ∧ s ≠ [] ∧ s.all pyIsDigit = true ∧ suf ≠ [] := by
  unfold get_numeric_part at h
  split at h
  · next hps =>
    simp only [Bool.and_eq_true] at hps
    obtain ⟨hp, hsuf⟩ := hps
    split at h
    · next hcond =>
      simp only [Bool.and_eq_true, Bool.not_eq_true', List.isEmpty_eq_false] at hcond
      obtain ⟨hne, hdig⟩ := hcond
      have hs : s = pySliceToNegEnd fn pre.length suf.length := by
        injection h with h
        exact h.symm
      subst hs
      have hpre : pre <+: fn := by
        rw [← List.isPrefixOf_iff_prefix]
        exact hp
      have hsfx : suf <:+ fn := by
        rw [← List.isSuffixOf_iff_suffix]
        exact hsuf
      obtain ⟨r, hr⟩ := hpre
      obtain ⟨q, hq⟩ := hsfx
      have hsufne : suf ≠ [] := by
        intro hnil
        subst hnil
        simp [pySliceToNegEnd] at hne
      have hslen : suf.length ≠ 0 := fun hl => hsufne (List.eq_nil_of_length_eq_zero hl)
      have hslice : pySliceToNegEnd fn pre.length suf.length
          = r.take (r.length - suf.length) := by
        unfold pySliceToNegEnd
        rw [if_neg hslen, ← hr]
        simp [List.drop_left]
      rw [hslice] at hne hdig ⊢
      -- the slice is nonempty, so `suf.length < r.length`
      have hlt : suf.length < r.length := by
        by_contra hge
        push_neg at hge
        have : r.length - suf.length = 0 := by omega
        rw [this, List.take_zero] at hne
        exact hne rfl
      -- the last `suf.length` elements of `r` are exactly `suf`
      have hdropr : r.drop (r.length - suf.length) = suf := by
        have h1 : fn.drop (fn.length - suf.length) = suf := by
          rw [← hq]
          have hql : (q ++ suf).length - suf.length = q.length := by simp
          rw [hql, List.drop_left]
        have h2 : fn.drop (fn.length - suf.length)
            = r.drop (r.length - suf.length) := by
          rw [← hr]
          have hl : (pre ++ r).length - suf.length
              = pre.length + (r.length - suf.length) := by
            simp only [List.length_append]
            omega
          rw [hl, ← List.drop_drop, List.drop_left]
        rw [← h2, h1]
      refine ⟨?_, hne, hdig, hsufne⟩
      rw [← hr]
      have hglue : List.take (r.length - suf.length) r ++ suf = r := by
        conv_rhs => rw [← List.take_append_drop (r.length - suf.length) r]
        rw [hdropr]
      rw [List.append_assoc, hglue]
    · exact absurd h (by simp)
  · exact absurd h (by simp)

/-- A name built from the template decomposes back into its parts
(`numeric part = zeroPad w v`), provided the suffix is nonempty. -/
theorem get_numeric_part_template {pre suf : Str} (hsuf : suf ≠ []) (w v : Nat) :
    get_numeric_part (pre ++ zeroPad w v ++ suf) pre suf = some (zeroPad w v) := by
  unfold get_numeric_part
  have hp : pre.isPrefixOf (pre ++ zeroPad w v ++ suf) = true := by
    rw [List.isPrefixOf_iff_prefix, List.append_assoc]
    exact ⟨zeroPad w v ++ suf, rfl⟩
  have hs : suf.isSuffixOf (pre ++ zeroPad w v ++ suf) = true := by
    rw [List.isSuffixOf_iff_suffix]
    exact ⟨pre ++ zeroPad w v, by simp⟩
  rw [hp, hs]
  simp only [Bool.and_self, if_true]
  have hslen : suf.length ≠ 0 := fun hl => hsuf (List.eq_nil_of_length_eq_zero hl)
  have hslice : pySliceToNegEnd (pre ++ zeroPad w v ++ suf) pre.length suf.length
      = zeroPad w v := by
    unfold pySliceToNegEnd
    rw [if_neg hslen, List.append_assoc, List.drop_left]
    have : (zeroPad w v ++ suf).length - suf.length = (zeroPad w v).length := by
      simp
    rw [this, List.take_left]
  rw [hslice]
  rw [if_pos]
  simp only [Bool.and_eq_true, Bool.not_eq_true', List.isEmpty_eq_false]
  exact ⟨zeroPad_ne_nil w v, zeroPad_all_digits w v⟩

/-! ### The sort order is total, transitive and antisymmetric -/

theorem strLeB_total (a : Str) : ∀ b, strLeB a b = true ∨ strLeB b a = true := by
  induction a with
  | nil => intro b; left; cases b <;> rfl
  | cons x xs ih =>
    intro b
    cases b with
    | nil => right; rfl
    | cons y ys =>
      unfold strLeB
      rcases lt_trichotomy x y with h | h | h
      · left; rw [if_pos h]
      · subst h
        have hxx : ¬ x < x := lt_irrefl x
        simp only [if_neg hxx]
        exact ih ys
      · right; rw [if_pos h]

theorem strLeB_trans (a : Str) : ∀ b c, strLeB a b = true → strLeB b c = true →
    strLeB a c = true := by
  induction a with
  | nil => intro b c _ _; cases c <;> rfl
  | cons x xs ih =>
    intro b c hab hbc
    cases b with
    | nil => simp [strLeB] at hab
    | cons y ys =>
      cases c with
      | nil => simp [strLeB] at hbc
      | cons z zs =>
        unfold strLeB at hab hbc ⊢
        rcases lt_trichotomy x y with hxy | hxy | hxy <;>
          rcases lt_trichotomy y z with hyz | hyz | hyz
        · rw [if_pos (lt_trans hxy hyz)]
        · subst hyz; rw [if_pos hxy]
        · rw [if_neg (asymm hyz), if_pos hyz] at hbc; exact absurd hbc (by simp)
        · subst hxy; rw [if_pos hyz]
        · subst hxy; subst hyz
          have hxx : ¬ x < x := lt_irrefl x
          simp only [if_neg hxx] at hab hbc ⊢
          exact ih ys zs hab hbc
        · subst hxy; rw [if_neg (asymm hyz), if_pos hyz] at hbc; exact absurd hbc (by simp)
        · rw [if_neg (asymm hxy), if_pos hxy] at hab; exact absurd hab (by simp)
        · rw [if_neg (asymm hxy), if_pos hxy] at hab; exact absurd hab (by simp)
        · rw [if_neg (asymm hxy), if_pos hxy] at hab; exact absurd hab (by simp)

theorem strLeB_antisymm (a : Str) : ∀ b, strLeB a b = true → strLeB b a = true →
    a = b := by
  induction a with
  | nil =>
    intro b _ hba
    cases b with
    | nil => rfl
    | cons y ys => simp [strLeB] at hba
  | cons x xs ih =>
    intro b hab hba
    cases b with
    | nil => simp [strLeB] at hab
    | cons y ys =>
      unfold strLeB at hab hba
      rcases lt_trichotomy x y with h | h | h
      · rw [if_neg (asymm h), if_pos h] at hba; exact absurd hba (by simp)
      · subst h
        have hxx : ¬ x < x := lt_irrefl x
        simp only [if_neg hxx] at hab hba
        rw [ih ys hab hba]
      · rw [if_neg (asymm h), if_pos h] at hab; exact absurd hab (by simp)

theorem fileLe_isTotal (pre suf : Str) : IsTotal Str (fileLe pre suf) := by
  constructor
  intro f g
  unfold fileLe
  rcases lt_trichotomy (numValOf pre suf f) (numValOf pre suf g) with h | h | h
  · exact Or.inl (Or.inl h)
  · rcases strLeB_total f g with hs | hs
    · exact Or.inl (Or.inr ⟨h, hs⟩)
    · exact Or.inr (Or.inr ⟨h.symm, hs⟩)
  · exact Or.inr (Or.inl h)

theorem fileLe_isTrans (pre suf : Str) : IsTrans Str (fileLe pre suf) := by
  constructor
  intro f g k hfg hgk
  unfold fileLe at hfg hgk ⊢
  rcases hfg with h1 | ⟨h1, hs1⟩ <;> rcases hgk with h2 | ⟨h2, hs2⟩
  · exact Or.inl (lt_trans h1 h2)
  · exact Or.inl (h2 ▸ h1)
  · exact Or.inl (h1 ▸ h2)
  · exact Or.inr ⟨h1.trans h2, strLeB_trans f g k hs1 hs2⟩

theorem fileLe_isAntisymm (pre suf : Str) : IsAntisymm Str (fileLe pre suf) := by
  constructor
  intro f g hfg hgf
  unfold fileLe at hfg hgf
  rcases hfg with h1 | ⟨h1, hs1⟩ <;> rcases hgf with h2 | ⟨h2, hs2⟩
  · exact absurd h2 (lt_asymm h1)
  · exact absurd h1 (by omega)
  · exact absurd h2 (by omega)
  · exact strLeB_antisymm f g hs1 hs2

/-! ### The counter agrees with the enumerator (claim C3 machinery) -/

theorem countProbeLoop_eq_collectRun (dir : List Str) (pre suf : Str) (w : Nat) :
    ∀ fuel v, countProbeLoop dir pre suf w fuel v = collectRun dir pre suf w fuel v := by
  intro fuel
  induction fuel with
  | zero => intro v; rfl
  | succ fuel ih =>
    intro v
    unfold countProbeLoop collectRun
    split
    · rw [ih]
    · rfl

theorem countLoop_eq_length (dir : List Str) (pre suf : Str) :
    ∀ l processed, countLoop dir pre suf l processed
      = (sequenceRunsLoop dir pre suf l processed).length := by
  intro l
  induction l with
  | nil => intro processed; rfl
  | cons fn rest ih =>
    intro processed
    unfold countLoop sequenceRunsLoop
    split
    · exact ih processed
    · split
      · exact ih processed
      · next s =>
        rw [countProbeLoop_eq_collectRun]
        split
        · exact ih processed
        · rw [List.length_cons, ih]
          omega

/-! ### Runs: basic facts (claim C1 machinery) -/

theorem collectRun_succ (dir : List Str) (pre suf : Str) (w fuel v : Nat) :
    collectRun dir pre suf w (fuel + 1) v =
      if templateName pre suf w v ∈ dir then
        templateName pre suf w v :: collectRun dir pre suf w fuel (v + 1)
      else [] := rfl

/-- Every file collected by the probe loop is a directory member named by the
template at some probed value. -/
theorem mem_collectRun {dir : List Str} {pre suf : Str} {w : Nat} :
    ∀ {fuel v f}, f ∈ collectRun dir pre suf w fuel v →
      f ∈ dir ∧ ∃ u, v ≤ u ∧ f = templateName pre suf w u := by
  intro fuel
  induction fuel with
  | zero => intro v f h; simp [collectRun] at h
  | succ fuel ih =>
    intro v f h
    rw [collectRun_succ] at h
    split at h
    · next hmem =>
      rcases List.mem_cons.mp h with rfl | h2
      · exact ⟨hmem, v, le_rfl, rfl⟩
      · obtain ⟨hd, u, hu, he⟩ := ih h2
        exact ⟨hd, u, by omega, he⟩
    · simp at h

/-- Every file of every emitted run is a matching file of the directory. -/
theorem sequenceRunsLoop_sound (dir : List Str) (pre suf : Str) :
    ∀ l processed r, r ∈ sequenceRunsLoop dir pre suf l processed →
      ∀ f ∈ r.2, f ∈ dir ∧ (get_numeric_part f pre suf).isSome = true := by
  intro l
  induction l with
  | nil => intro processed r hr; simp [sequenceRunsLoop] at hr
  | cons g rest ih =>
    intro processed r hr
    unfold sequenceRunsLoop at hr
    split at hr
    · exact ih _ r hr
    · split at hr
      · exact ih _ r hr
      · next s heq =>
        split at hr
        · exact ih _ r hr
        · rcases List.mem_cons.mp hr with rfl | hr2
          · intro f hf
            obtain ⟨hfdir, u, _, hfe⟩ := mem_collectRun hf
            obtain ⟨_, _, _, hsufne⟩ := get_numeric_part_eq_some heq
            refine ⟨hfdir, ?_⟩
            rw [hfe, templateName, get_numeric_part_template hsufne]
            rfl
          · exact ih _ r hr2

/-- Coverage: a matching directory member that appears in the worklist is
either already processed or belongs to some run emitted by the loop. -/
theorem sequenceRunsLoop_covers (dir : List Str) (pre suf : Str) :
    ∀ l processed f, f ∈ l → f ∈ dir → (get_numeric_part f pre suf).isSome = true →
      f ∈ processed ∨ ∃ r ∈ sequenceRunsLoop dir pre suf l processed, f ∈ r.2 := by
  intro l
  induction l with
  | nil => intro processed f hf; simp at hf
  | cons g rest ih =>
    intro processed f hf hfdir hfmatch
    unfold sequenceRunsLoop
    rcases List.mem_cons.mp hf with rfl | hfr
    · -- `f` is the head of the worklist
      by_cases hproc : f ∈ processed
      · exact Or.inl hproc
      · rw [if_neg hproc]
        split
        · next heq => rw [heq] at hfmatch; simp at hfmatch
        · next s heq =>
          obtain ⟨hfn_eq, hne2, hdig, _⟩ := get_numeric_part_eq_some heq
          have htmpl : templateName pre suf s.length (digitsVal s) = f := by
            rw [templateName, zeroPad_digitsVal hne2 hdig, hfn_eq]
          have hhit : f ∈ collectRun dir pre suf s.length (dir.length + 1) (digitsVal s) := by
            rw [collectRun_succ, htmpl, if_pos hfdir]
            exact List.mem_cons_self _ _
          have hnonempty :
              ¬ (collectRun dir pre suf s.length (dir.length + 1) (digitsVal s)).isEmpty = true := by
            intro hempty
            rw [List.isEmpty_eq_true] at hempty
            rw [hempty] at hhit
            simp at hhit
          rw [if_neg hnonempty]
          exact Or.inr ⟨_, List.mem_cons_self _ _, hhit⟩
    · -- `f` is further down the worklist
      by_cases hproc : g ∈ processed
      · rw [if_pos hproc]
        exact ih processed f hfr hfdir hfmatch
      · rw [if_neg hproc]
        split
        · exact ih processed f hfr hfdir hfmatch
        · next s heq =>
          split
          · exact ih processed f hfr hfdir hfmatch
          · rcases ih (processed ++ collectRun dir pre suf s.length (dir.length + 1) (digitsVal s))
                f hfr hfdir hfmatch with hin | ⟨r, hr, hfr2⟩
            · rcases List.mem_append.mp hin with hl | hl
              · exact Or.inl hl
              · exact Or.inr ⟨_, List.mem_cons_self _ _, hl⟩
            · exact Or.inr ⟨r, List.mem_cons_of_mem _ hr, hfr2⟩

/-! ### Fuel faithfulness of the probe loop -/

/-- Template names are injective in the probed value. -/
theorem templateName_injective {pre suf : Str} {w v u : Nat}
    (h : templateName pre suf w v = templateName pre suf w u) : v = u := by
  unfold templateName at h
  have h1 : pre ++ zeroPad w v = pre ++ zeroPad w u := List.append_cancel_right h
  have h2 : zeroPad w v = zeroPad w u := List.append_cancel_left h1
  have := digitsVal_zeroPad w v
  rw [h2, digitsVal_zeroPad] at this
  omega

theorem collectRun_nodup (dir : List Str) (pre suf : Str) (w : Nat) :
    ∀ fuel v, (collectRun dir pre suf w fuel v).Nodup := by
  intro fuel
  induction fuel with
  | zero => intro v; simp [collectRun]
  | succ fuel ih =>
    intro v
    rw [collectRun_succ]
    split
    · refine List.Nodup.cons ?_ (ih (v + 1))
      intro hmem
      obtain ⟨_, u, hu, he⟩ := mem_collectRun hmem
      have := templateName_injective he.symm
      omega
    · exact List.nodup_nil

theorem collectRun_length_le (dir : List Str) (pre suf : Str) (w : Nat)
    (hdir : dir.Nodup) (fuel v : Nat) :
    (collectRun dir pre suf w fuel v).length ≤ dir.length := by
  classical
  have hsub : (collectRun dir pre suf w fuel v).toFinset ⊆ dir.toFinset := by
    intro x hx
    rw [List.mem_toFinset] at hx ⊢
    exact (mem_collectRun hx).1
  calc (collectRun dir pre suf w fuel v).length
      = (collectRun dir pre suf w fuel v).toFinset.card :=
        (List.toFinset_card_of_nodup (collectRun_nodup dir pre suf w fuel v)).symm
    _ ≤ dir.toFinset.card := Finset.card_le_card hsub
    _ ≤ dir.length := List.toFinset_card_le dir

theorem collectRun_stable_of_short (dir : List Str) (pre suf : Str) (w : Nat) :
    ∀ fuel v fuel2, (collectRun dir pre suf w fuel v).length < fuel → fuel ≤ fuel2 →
      collectRun dir pre suf w fuel2 v = collectRun dir pre suf w fuel v := by
  intro fuel
  induction fuel with
  | zero => intro v fuel2 h; omega
  | succ fuel ih =>
    intro v fuel2 hlen hle
    obtain ⟨k, rfl⟩ : ∃ k, fuel2 = k + 1 := ⟨fuel2 - 1, by omega⟩
    rw [collectRun_succ, collectRun_succ]
    rw [collectRun_succ] at hlen
    split
    · next hmem =>
      rw [if_pos hmem] at hlen
      simp only [List.length_cons] at hlen
      rw [ih (v + 1) k (by omega) (by omega)]
    · rfl

/-- With fuel `dir.length + 1` the probe loop of a duplicate-free directory
listing has already stabilised: the embedding computes the value of the
unbounded Python `while` loop. -/
theorem collectRun_fuel_stable (dir : List Str) (pre suf : Str) (w : Nat)
    (hdir : dir.Nodup) (fuel v : Nat) (hfuel : dir.length + 1 ≤ fuel) :
    collectRun dir pre suf w fuel v = collectRun dir pre suf w (dir.length + 1) v :=
  collectRun_stable_of_short dir pre suf w (dir.length + 1) v fuel
    (Nat.lt_succ_of_le (collectRun_length_le dir pre suf w hdir _ v)) hfuel

/-! ### Claim C1 -/

/-- C1 counterexample: in a directory listing `P9.JPG`, `P09.JPG`,
`P10.JPG` (the value 9 encoded at two zero-padding widths), sequence
enumeration emits two runs that BOTH contain `P10.JPG` — the run started at
`P09.JPG` (width 2) first claims `P10.JPG`, and the run started at `P9.JPG`
(width 1) claims it again, because the probe loop checks only `is_file()`,
never the processed set.  The emitted runs are therefore not pairwise
disjoint, refuting the partition claim at this input. -/
theorem c1_counterexample :
    (sequenceRuns [str "P9.JPG", str "P09.JPG", str "P10.JPG"] (str "P") (str ".JPG")
      = [(2, [str "P09.JPG", str "P10.JPG"]), (1, [str "P9.JPG", str "P10.JPG"])]) ∧
    ¬ ([(2, [str "P09.JPG", str "P10.JPG"]), (1, [str "P9.JPG", str "P10.JPG"])].Pairwise
        (fun r1 r2 : Nat × List Str => r1.2.Disjoint r2.2)) := by
  constructor
  · decide
  · intro hpw
    rw [List.pairwise_cons] at hpw
    exact hpw.1 _ (List.mem_cons_self _ _)
      (by decide : str "P10.JPG" ∈ [str "P09.JPG", str "P10.JPG"]) (by decide)

/-- C1 (amended): for every directory and every (prefix, suffix) pair, the
runs emitted by sequence enumeration COVER the matching files exactly —
every file whose name decomposes as prefix+digits+suffix belongs to at least
one emitted run, and runs contain only such files — but the runs need not be
pairwise disjoint: when two files encode equal numeric values with different
zero-padding widths, an emitted run can re-claim a file already claimed by an
earlier run (see `c1_counterexample`). -/
theorem c1_runs_cover_matching_files (dir : List Str) (pre suf : Str) :
    (∀ f, f ∈ dir → (get_numeric_part f pre suf).isSome = true →
        ∃ r ∈ sequenceRuns dir pre suf, f ∈ r.2) ∧
    (∀ r ∈ sequenceRuns dir pre suf, ∀ f ∈ r.2,
        f ∈ dir ∧ (get_numeric_part f pre suf).isSome = true) := by
  constructor
  · intro f hfdir hfmatch
    have hfpot : f ∈ potentialFiles dir pre suf :=
      List.mem_filter.mpr ⟨hfdir, hfmatch⟩
    have hfsorted : f ∈ List.insertionSort (fileLe pre suf) (potentialFiles dir pre suf) :=
      ((List.perm_insertionSort _ _).mem_iff).mpr hfpot
    rcases sequenceRunsLoop_covers dir pre suf _ [] f hfsorted hfdir hfmatch with hin | h
    · simp at hin
    · exact h
  · exact fun r hr => sequenceRunsLoop_sound dir pre suf _ [] r hr

/-! ### Claim C3 -/

/-- C3: for every list of directories and every (prefix, suffix),
`count_total_sequences_in_paths` returns exactly the number of
`(command, output path, frame count)` triples yielded by
`generate_ffmpeg_commands_for_sequences_in_dir` on each directory (with any
settings, probe oracle and directory naming, each of which may vary per
directory), summed. -/
theorem c3_count_agrees_with_generate (dirs : List (List Str)) (pre suf : Str)
    (cs : CommonSettings) (dims : List Str → Str → Option (Nat × Nat))
    (dirName dirPath : List Str → Str) :
    count_total_sequences_in_paths dirs pre suf =
      (dirs.map (fun d =>
        (generate_ffmpeg_commands_for_sequences_in_dir d pre suf cs (dims d)
          (dirName d) (dirPath d)).length)).sum := by
  unfold count_total_sequences_in_paths generate_ffmpeg_commands_for_sequences_in_dir
  congr 1
  apply List.map_congr_left
  intro d _
  rw [List.length_map]
  exact countLoop_eq_length d pre suf _ []

/-! ### Claim C7 -/

/-- The sort used by the scanners is canonical: permuted inputs (different
OS listing orders) sort identically, because the key (numeric value, full
name) makes `fileLe` antisymmetric. -/
theorem insertionSort_canonical (pre suf : Str) {l1 l2 : List Str} (hperm : l1.Perm l2) :
    List.insertionSort (fileLe pre suf) l1 = List.insertionSort (fileLe pre suf) l2 := by
  haveI := fileLe_isTotal pre suf
  haveI := fileLe_isTrans pre suf
  haveI := fileLe_isAntisymm pre suf
  have hp : (List.insertionSort (fileLe pre suf) l1).Perm
      (List.insertionSort (fileLe pre suf) l2) :=
    (List.perm_insertionSort _ _).trans (hperm.trans (List.perm_insertionSort _ _).symm)
  exact List.eq_of_perm_of_sorted hp (List.sorted_insertionSort _ _)
    (List.sorted_insertionSort _ _)

/-- The probe loop only consults the directory through membership. -/
theorem collectRun_congr {d1 d2 : List Str} (pre suf : Str) (w : Nat)
    (hmem : ∀ x : Str, x ∈ d1 ↔ x ∈ d2) :
    ∀ fuel v, collectRun d1 pre suf w fuel v = collectRun d2 pre suf w fuel v := by
  intro fuel
  induction fuel with
  | zero => intro v; rfl
  | succ fuel ih =>
    intro v
    rw [collectRun_succ, collectRun_succ]
    by_cases h : templateName pre suf w v ∈ d1
    · rw [if_pos h, if_pos ((hmem _).mp h), ih]
    · rw [if_neg h, if_neg (fun h2 => h ((hmem _).mpr h2))]

/-- The outer loop only consults the directory through membership and its
length (the probe fuel). -/
theorem sequenceRunsLoop_congr {d1 d2 : List Str} (pre suf : Str)
    (hmem : ∀ x : Str, x ∈ d1 ↔ x ∈ d2) (hlen : d1.length = d2.length) :
    ∀ l processed, sequenceRunsLoop d1 pre suf l processed
      = sequenceRunsLoop d2 pre suf l processed := by
  intro l
  induction l with
  | nil => intro processed; rfl
  | cons g rest ih =>
    intro processed
    have hcr : ∀ (s : Str) (v : Nat), collectRun d1 pre suf s.length (d1.length + 1) v
        = collectRun d2 pre suf s.length (d2.length + 1) v := by
      intro s v
      rw [hlen]
      exact collectRun_congr pre suf s.length hmem _ v
    unfold sequenceRunsLoop
    split
    · exact ih processed
    · split
      · exact ih processed
      · next s heq =>
        rw [hcr s (digitsVal s)]
        split
        · exact ih processed
        · rw [ih (processed ++ collectRun d2 pre suf s.length (d2.length + 1) (digitsVal s))]

/-- C7: job compilation is deterministic.  All inputs of the compilation are
explicit — the directory listing, prefix/suffix, the settings record and the
probe oracle — and the output does not even depend on the order in which the
operating system lists the directory: two invocations on listings that are
permutations of each other (in particular, on identical listings) yield
syntactically identical command lists, destination paths and frame counts,
sequence for sequence. -/
theorem c7_generate_deterministic (d1 d2 : List Str) (pre suf : Str)
    (cs : CommonSettings) (dims : Str → Option (Nat × Nat)) (dirName dirPath : Str)
    (hperm : d1.Perm d2) :
    generate_ffmpeg_commands_for_sequences_in_dir d1 pre suf cs dims dirName dirPath
      = generate_ffmpeg_commands_for_sequences_in_dir d2 pre suf cs dims dirName dirPath := by
  unfold generate_ffmpeg_commands_for_sequences_in_dir sequenceRuns potentialFiles
  rw [insertionSort_canonical pre suf (hperm.filter _)]
  rw [sequenceRunsLoop_congr pre suf (fun x => hperm.mem_iff) hperm.length_eq _ []]

/-- C7 witness: two concrete listings of the same two frames in opposite
orders compile to the same jobs. -/
theorem c7_witness :
    generate_ffmpeg_commands_for_sequences_in_dir [str "P1.JPG", str "P2.JPG"]
        (str "P") (str ".JPG") {} (fun _ => none) (str "proj") (str "/data/proj")
      = generate_ffmpeg_commands_for_sequences_in_dir [str "P2.JPG", str "P1.JPG"]
        (str "P") (str ".JPG") {} (fun _ => none) (str "proj") (str "/data/proj") :=
  c7_generate_deterministic [str "P1.JPG", str "P2.JPG"] [str "P2.JPG", str "P1.JPG"]
    (str "P") (str ".JPG") {} (fun _ => none) (str "proj") (str "/data/proj") (by decide)

/-! ### Claim C4 -/

/-- C4 counterexample: with codec `hevc_nvenc` and no requested scale, a
probed width of 5000 — which does NOT exceed the claimed hevc limit of 8192
(`MAX_NVENC_HEVC_WIDTH`) — is nevertheless force-downscaled, and the target
is 4096 (`MAX_NVENC_H264_WIDTH`), not the hevc maximum: the source compares
and scales both NVENC branches against the h264 limit (lines 205–206, marked
`# Simplified`). -/
theorem c4_counterexample :
    5000 ≤ MAX_NVENC_HEVC_WIDTH ∧
    effectiveScale (str "hevc_nvenc") 5000 [] (str "Original")
      = (str "scale=4096:-2:flags=lanczos", str "AutoScaled-4096w") := by
  refine ⟨by decide, by decide⟩

/-- C4 (amended): for a sequence with no explicit scale filter whose first
frame's probed width exceeds 4096, job compilation under `h264_nvenc` — and,
because the source simplifies the hevc branch to the same h264 limit, under
`hevc_nvenc` as well — forces the aspect-preserving downscale
`scale=4096:-2:flags=lanczos` to width 4096 and marks the resolution
description `AutoScaled-4096w`. -/
theorem c4_hw_downscale (vc : Str) (wpx : Nat) (desc : Str)
    (hvc : vc = str "h264_nvenc" ∨ vc = str "hevc_nvenc")
    (hw : MAX_NVENC_H264_WIDTH < wpx) :
    effectiveScale vc wpx [] desc
      = (str "scale=4096:-2:flags=lanczos", str "AutoScaled-4096w") := by
  have hpos : 0 < wpx := by
    unfold MAX_NVENC_H264_WIDTH at hw
    omega
  have hneeds : needsHwScalingAdjustment vc wpx [] = (true, MAX_NVENC_H264_WIDTH) := by
    unfold needsHwScalingAdjustment
    rw [if_pos (by simp [hpos])]
    rcases hvc with rfl | rfl
    · rw [if_pos (by simp [hw])]
    · have hne : (str "hevc_nvenc" == str "h264_nvenc") = false := by decide
      rw [if_neg (by simp [hne]), if_pos (by simp [hw])]
  unfold effectiveScale
  rw [hneeds]
  have htrue : ((true, MAX_NVENC_H264_WIDTH) : Bool × Nat).1 = true := rfl
  rw [if_pos htrue]
  decide

/-- C4 witness: width 5000 under `h264_nvenc` exceeds 4096 and is
downscaled. -/
theorem c4_witness :
    effectiveScale (str "h264_nvenc") 5000 [] (str "Original")
      = (str "scale=4096:-2:flags=lanczos", str "AutoScaled-4096w") :=
  c4_hw_downscale (str "h264_nvenc") 5000 (str "Original") (Or.inl rfl) (by decide)

/-! ### Claim C5 -/

/-- C5 counterexample: when the parent path does not exist or is not a
directory, `find_potential_sequence_dirs` prints an engine error and returns
the empty list normally — its embedding is a total function into `List Str`
and yields `[]` — whereas the claimed behaviour (the spec-modelled
comparator) fails with a `NotADirectoryError`-class error there. -/
theorem c5_counterexample :
    find_potential_sequence_dirs none (str "P") (str ".JPG") = [] ∧
    discover_candidate_directories_specModel none (str "P") (str ".JPG")
      = Except.error (str "NotADirectoryError") :=
  ⟨rfl, rfl⟩

/-- C5 (amended): a missing or non-directory parent yields the empty list
(with an error logged, no exception), and an existing parent none of whose
entries qualifies — no entry is a directory containing a file matching
prefix+digits+suffix — also yields the empty list. -/
theorem c5_empty_results (pre suf : Str) (items : List DirEntry)
    (hno : ∀ it ∈ items,
      (it.isDir && it.files.any (fun f => (get_numeric_part f pre suf).isSome)) = false) :
    find_potential_sequence_dirs none pre suf = [] ∧
    find_potential_sequence_dirs (some items) pre suf = [] := by
  refine ⟨rfl, ?_⟩
  unfold find_potential_sequence_dirs
  rw [List.map_eq_nil_iff, List.filter_eq_nil_iff]
  intro it hit
  rw [hno it hit]
  simp

/-- C5 witness: a parent with one subdirectory holding only `notes.txt`
qualifies nothing and yields the empty list. -/
theorem c5_witness :
    find_potential_sequence_dirs none (str "P") (str ".JPG") = [] ∧
    find_potential_sequence_dirs
      (some [⟨str "sub", true, [str "notes.txt"]⟩]) (str "P") (str ".JPG") = [] :=
  c5_empty_results (str "P") (str ".JPG") [⟨str "sub", true, [str "notes.txt"]⟩]
    (by decide)

/-! ### Claim C8 -/

/-- C8: custom `WxH` validation behaves as claimed: width `1921` (odd) is
rejected and falls back to no scaling with the `Custom Err` description (the
branch returns normally — the job is not failed); width `1920` with height
`-2` is accepted and produces the custom filter
`scale=1920:-2:flags=lanczos`; height `1081` (odd) is rejected and falls
back to no scaling. -/
theorem c8_custom_scale_validation :
    customScaleSettings (str "1921") (str "1080") = ([], str "Original (Custom Err)") ∧
    customScaleSettings (str "1920") (str "-2")
      = (str "scale=1920:-2:flags=lanczos", str "Custom 1920x(auto_H)") ∧
    customScaleSettings (str "1920") (str "1081") = ([], str "Original (Custom Err)") := by
  refine ⟨by decide, by decide, by decide⟩

/-! ### Claim C2 -/

/-- C2: evaluating `start_batch_action` at a failing input — one checked
sequence and successfully gathered settings.  The method falls through
without resetting `current_batch_sequence_index` (still 7) or
`processed_sequences_in_batch_count` (still 5) and without dispatching any
job: the counter-reset and `process_next_individual_sequence()` call (lines
1083–1100) are dead code indented after the `return` of the settings-failure
branch, so the claimed transition to `Running(0)` with a first dispatch never
happens.  The empty-selection half of the claim does hold: with nothing
checked the method logs and returns at once, leaving the batch idle. -/
theorem c2_start_batch_never_dispatches :
    ((start_batch_action
        { current_batch_sequence_index := 7, processed_sequences_in_batch_count := 5 }
        [scanSeqDict (str "/d") (str "0001") 3] (some {})).2
      = StartOutcome.fellThroughNoDispatch) ∧
    ((start_batch_action
        { current_batch_sequence_index := 7, processed_sequences_in_batch_count := 5 }
        [scanSeqDict (str "/d") (str "0001") 3] (some {})).1.current_batch_sequence_index
      = 7) ∧
    ((start_batch_action
        { current_batch_sequence_index := 7, processed_sequences_in_batch_count := 5 }
        [scanSeqDict (str "/d") (str "0001") 3] (some {})).1.processed_sequences_in_batch_count
      = 5) ∧
    ((start_batch_action {} [] (some {})).2 = StartOutcome.emptySelectionReturn) :=
  ⟨rfl, rfl, rfl, rfl⟩

/-! ### Claim C6 -/

/-- C6: the `try` block of `FFmpegWorker.run` has no `except` clauses (only a
placeholder comment demanding they emit `finished(False, …)`), so when the
encoder process fails to spawn the exception propagates out of `run` — the
result is the error branch, whose emitted events are the two pre-spawn log
messages and never any terminal `finished` event.  This refutes the claimed
immediate failure event (the claim matches the source's own comment, so the
code, not the claim, is at fault). -/
theorem c6_spawn_failure_emits_no_terminal_event (e outPath : Str) (total : Nat)
    (verbose : Bool) :
    ffmpegWorkerRun outPath total verbose (Except.error e)
      = Except.error (e, [WorkerEvent.log (str "Starting FFmpeg for"),
          WorkerEvent.log (str "Executing FFmpeg")]) ∧
    (∀ b s, WorkerEvent.finished b s ∉
      [WorkerEvent.log (str "Starting FFmpeg for"),
       WorkerEvent.log (str "Executing FFmpeg")]) ∧
    (∀ evs, ffmpegWorkerRun outPath total verbose (Except.error e) ≠ Except.ok evs) := by
  refine ⟨rfl, ?_, ?_⟩
  · intro b s h
    simp at h
  · intro evs h
    simp [ffmpegWorkerRun] at h

/-! ### Claim C9 -/

/-- C9: batch cancellation while a job is in flight.  (i) `cancel_batch_action`
sets the batch-cancel flag; (ii) a worker run that observes the cancellation
(at any loop iteration, or at the post-loop re-check) emits as its terminal
event `finished(False, path + " (Cancelled)")`; (iii) this tag differs from
the plain failure tag `path`; (iv)–(vi) the subsequent advance
(`on_ffmpeg_worker_finished_slot`) observes the flag and halts with
`cancelledHalt` — no further job is dispatched — incrementing only the index,
never the completed count. -/
theorem c9_cancel_tags_and_halts (st : AppState) (success : Bool) (out outPath : Str)
    (total : Nat) (verbose : Bool) (proc : ProcModel)
    (hcancel : ((progressLoop total proc.lines).2 || proc.lateCancel) = true) :
    (cancel_batch_action st).batch_cancelled_flag = true ∧
    ffmpegWorkerRun outPath total verbose (Except.ok proc)
      = Except.ok ([WorkerEvent.log (str "Starting FFmpeg for"),
          WorkerEvent.log (str "Executing FFmpeg")] ++ (progressLoop total proc.lines).1 ++
          [WorkerEvent.log (str "confirmed cancelled"),
           WorkerEvent.finished false (outPath ++ str " (Cancelled)")]) ∧
    (outPath ++ str " (Cancelled)") ≠ outPath ∧
    (on_ffmpeg_worker_finished_slot (cancel_batch_action st) success out).2
      = NextOutcome.cancelledHalt ∧
    (on_ffmpeg_worker_finished_slot (cancel_batch_action st) success
        out).1.current_batch_sequence_index
      = st.current_batch_sequence_index + 1 ∧
    (on_ffmpeg_worker_finished_slot (cancel_batch_action st) success
        out).1.processed_sequences_in_batch_count
      = st.processed_sequences_in_batch_count := by
  refine ⟨rfl, ?_, ?_, ?_, ?_, ?_⟩
  · simp only [ffmpegWorkerRun]
    rw [if_pos hcancel]
  · intro h
    have h2 : outPath ++ str " (Cancelled)" = outPath ++ [] := by
      rw [List.append_nil]
      exact h
    exact absurd (List.append_cancel_left h2) (by decide)
  · simp [on_ffmpeg_worker_finished_slot, cancel_batch_action,
      process_next_individual_sequence]
  · simp [on_ffmpeg_worker_finished_slot, cancel_batch_action,
      process_next_individual_sequence, cleanup_after_batch_or_cancel]
  · simp [on_ffmpeg_worker_finished_slot, cancel_batch_action,
      process_next_individual_sequence, cleanup_after_batch_or_cancel]

/-- C9 witness: a concrete worker that sees the flag at its first read
iteration, inside a fresh app state. -/
theorem c9_witness :
    (((progressLoop 3 [(true, ProgLine.other)]).2 || false) = true) ∧
    (cancel_batch_action {}).batch_cancelled_flag = true ∧
    ffmpegWorkerRun (str "/out.mp4") 3 false
        (Except.ok ⟨[(true, ProgLine.other)], 0, false⟩)
      = Except.ok ([WorkerEvent.log (str "Starting FFmpeg for"),
          WorkerEvent.log (str "Executing FFmpeg")] ++
          (progressLoop 3 [(true, ProgLine.other)]).1 ++
          [WorkerEvent.log (str "confirmed cancelled"),
           WorkerEvent.finished false (str "/out.mp4" ++ str " (Cancelled)")]) ∧
    (str "/out.mp4" ++ str " (Cancelled)") ≠ str "/out.mp4" ∧
    (on_ffmpeg_worker_finished_slot (cancel_batch_action {}) false []).2
      = NextOutcome.cancelledHalt ∧
    (on_ffmpeg_worker_finished_slot (cancel_batch_action {}) false
        []).1.current_batch_sequence_index = 0 + 1 ∧
    (on_ffmpeg_worker_finished_slot (cancel_batch_action {}) false
        []).1.processed_sequences_in_batch_count = 0 := by
  have h := c9_cancel_tags_and_halts {} false [] (str "/out.mp4") 3 false
    ⟨[(true, ProgLine.other)], 0, false⟩ (by decide)
  exact ⟨by decide, h.1, h.2.1, h.2.2.1, h.2.2.2.1, h.2.2.2.2.1, h.2.2.2.2.2⟩

/-! ### Claim C10 -/

/-- C10: every batch-queue entry produced by the scan step is a dict holding
`start_number_str_approx` and no `start_number_str`; for any state whose
queue consists of such entries, an invocation of
`process_next_individual_sequence` that passes the cancel-flag and
queue-exhaustion guards raises an uncaught `KeyError` at the lookup of
`"start_number_str"` (line 1120) — so the job-matching/dispatch branch
(where the undefined name `sequence_data` would additionally raise
`NameError`, line 1141) is unreachable for scan-produced entries. -/
theorem c10_scan_entries_raise_keyError (st : AppState)
    (hflag : st.batch_cancelled_flag = false)
    (hidx : st.current_batch_sequence_index < st.sequences_queue_for_batch.length)
    (hscan : ∀ d ∈ st.sequences_queue_for_batch, ∃ p a n, d = scanSeqDict p a n) :
    (process_next_individual_sequence st).2
      = NextOutcome.keyError (str "start_number_str") := by
  unfold process_next_individual_sequence
  rw [if_neg (by simp [hflag]), if_neg (by omega)]
  have hmem : st.sequences_queue_for_batch.getD st.current_batch_sequence_index []
      ∈ st.sequences_queue_for_batch := by
    rw [List.getD_eq_getElem _ _ hidx]
    exact List.getElem_mem _
  obtain ⟨p, a, n, hd⟩ := hscan _ hmem
  rw [hd]
  rfl

/-- C10 witness: a fresh state whose queue holds one scan-produced entry. -/
theorem c10_witness :
    ({ sequences_queue_for_batch := [scanSeqDict (str "/d") (str "0001") 3] }
        : AppState).batch_cancelled_flag = false ∧
    (process_next_individual_sequence
        { sequences_queue_for_batch := [scanSeqDict (str "/d") (str "0001") 3] }).2
      = NextOutcome.keyError (str "start_number_str") := by
  refine ⟨rfl, ?_⟩
  exact c10_scan_entries_raise_keyError
    { sequences_queue_for_batch := [scanSeqDict (str "/d") (str "0001") 3] }
    rfl (by simp)
    (by
      intro d hd
      exact ⟨str "/d", str "0001", 3, List.eq_of_mem_singleton hd⟩)

end Timelapse
